import Mathlib

/-!
Verification of the DBS kinematic analysis core (`dbs_analysis_library`):
a shallow embedding of `analysis.py` (trial aggregation, baseline-relative
improvement, responsiveness estimation, regularized weight blending,
composite scoring and ranking), of `processing.py`'s `sort_condition_key`,
and of `utils.py`'s `parameter_directions`, together with theorems settling
the specification's claims about them.

Modelling conventions:
* pandas `DataFrame`s / `Series` become association lists (`List (String × _)`),
  whose key order mirrors the frame's row/column order;
* `NaN` cells become `none : Option ℚ`; float values are modelled exactly
  (every float is a rational), with the single irrational-producing
  operation, `std`'s square root, taken in `ℝ`;
* Python dict iteration order is the list order; dict keys are unique.
-/

/-- One cell of a raw trial CSV's `Value` column: either something
`pd.to_numeric` can parse, or text it cannot. -/
inductive RawValue where
  | num (q : ℚ)
  | text (s : String)
deriving DecidableEq

/-- One trial table: the (`Attribute`, `Value`) rows of a parsed CSV. -/
abbrev Trial := List (String × RawValue)

/-- Embeds `pd.to_numeric(v, errors='coerce')` on one cell: numeric values
pass through, anything else becomes missing (`NaN` = `none`). -/
def toNumeric : RawValue → Option ℚ
  | .num q => some q
  | .text _ => none

/-- First-match association-list lookup, the semantics of indexing a pandas
object (or Python dict) whose keys are unique. -/
def lookupA {β : Type} (k : String) (l : List (String × β)) : Option β :=
  match l.find? (fun kv => kv.1 == k) with
  | some kv => some kv.2
  | none => none

/-- Embeds Python's substring test `pat in s` on char lists. -/
def hasSubstr (pat : List Char) : List Char → Bool
  | [] => pat.isEmpty
  | c :: rest => pat.isPrefixOf (c :: rest) || hasSubstr pat rest

/-- Decimal digits to a natural number, Python `int` on a digit string. -/
def digitsToNat (ds : List Char) : Nat :=
  ds.foldl (fun acc c => 10 * acc + (c.toNat - '0'.toNat)) 0

/-- Embeds the regex tail `\s?(\d+)` anchored at the start of `cs`:
an optional single whitespace, then one or more digits (greedy). -/
def matchNumAfter (cs : List Char) : Option Nat :=
  let cs' := match cs with
    | c :: rest => if c.isWhitespace then rest else c :: rest
    | [] => []
  let ds := cs'.takeWhile Char.isDigit
  if ds.isEmpty then none else some (digitsToNat ds)

/-- Embeds the alternative `(?:pr|level)\s?(\d+)` anchored at the start of
`cs` (the string is already lowercased). The two literals can never both
match at one position, so trying `pr` first is exact. -/
def tryPrLevel (cs : List Char) : Option Nat :=
  if ['p', 'r'].isPrefixOf cs then matchNumAfter (cs.drop 2)
  else if ['l', 'e', 'v', 'e', 'l'].isPrefixOf cs then matchNumAfter (cs.drop 5)
  else none

/-- Embeds `re.search(r'(?:pr|level)\s?(\d+)', s)`: leftmost match wins. -/
def findPrLevelNum : List Char → Option Nat
  | [] => none
  | c :: rest =>
    match tryPrLevel (c :: rest) with
    | some n => some n
    | none => findPrLevelNum rest

/-- Embeds `processing.sort_condition_key`: "dbs off" maps to 0, a numbered
program (`pr<n>` / `level<n>`) to its number, otherwise "dbs on" to 100,
"med on" to 200, and anything else to 500. Python's `str.lower()` is taken
per character (condition names are ASCII). -/
def sort_condition_key (condition : String) : Nat :=
  let s := condition.data.map Char.toLower
  if hasSubstr "dbs off".toList s then 0
  else
    match findPrLevelNum s with
    | some n => n
    | none =>
      if hasSubstr "dbs on".toList s then 100
      else if hasSubstr "med on".toList s then 200
      else 500

/-- Stable insertion into a key-sorted list: an element is placed before the
first element of strictly-or-equally larger key, so earlier elements keep
priority on ties. -/
def insertSorted {α κ : Type} [LinearOrder κ] (key : α → κ) (x : α) : List α → List α
  | [] => [x]
  | y :: ys => if key x ≤ key y then x :: y :: ys else y :: insertSorted key x ys

/-- Stable sort by a key, the semantics of Python's `sorted(-, key=-)` (and
of numpy's stable ascending argsort). -/
def stableSortBy {α κ : Type} [LinearOrder κ] (key : α → κ) : List α → List α
  | [] => []
  | x :: xs => insertSorted key x (stableSortBy key xs)

/-- A pandas `DataFrame` with string row labels (`rows`, in order, each with
its cells in column order) and string column labels (`params`). A missing
(`NaN`) cell is `none`. -/
structure Frame where
  params : List String
  rows : List (String × List (String × Option ℚ))
deriving DecidableEq

/-- Embeds `pd.DataFrame()`. -/
def Frame.emptyFrame : Frame := ⟨[], []⟩

/-- Reads one cell of a row by column label. -/
def rowCell (cells : List (String × Option ℚ)) (p : String) : Option ℚ :=
  (lookupA p cells).join

/-- Reads a frame cell by row and column label. -/
def Frame.cell (F : Frame) (c p : String) : Option ℚ :=
  match lookupA c F.rows with
  | some cells => rowCell cells p
  | none => none

/-- The numeric values a parameter `p` takes over a condition's trials:
per trial, the `Value` at attribute `p` when present and numeric. These are
exactly the cells `pd.concat(series_list, axis=1)` aligns at index `p`
minus its `NaN`s, which `.mean(axis=1)` skips. -/
def collectVals (ts : List Trial) (p : String) : List ℚ :=
  ts.filterMap (fun t => (lookupA p t).bind toNumeric)

/-- Mean of a list of present values, `NaN` (= `none`) when none are
present: the skip-`NaN` semantics of `.mean(axis=1)`. -/
def meanOpt (xs : List ℚ) : Option ℚ :=
  if xs.isEmpty then none else some (xs.sum / xs.length)

/-- The attribute names appearing in any trial of a condition: the index of
the concatenated series (order of labels is representation only). -/
def condParams (ts : List Trial) : List String :=
  ((ts.map (fun t => t.map Prod.fst)).flatten).dedup

/-- One condition's aggregated row: per attribute, the mean over the trials
where the attribute is present and numeric. -/
def aggRow (ts : List Trial) : List (String × Option ℚ) :=
  (condParams ts).map (fun p => (p, meanOpt (collectVals ts p)))

/-- The input of the aggregator: condition → hand → list of trial tables. -/
abbrev DataMap := List (String × List (String × List Trial))

/-- Embeds the per-condition loop of `aggregate_task_data_by_hand`: a
condition contributes a row iff it has the requested hand with a nonempty
trial list, and the row is the across-trial mean. -/
def aggregatedPairs (data : DataMap) (hand : String) :
    List (String × List (String × Option ℚ)) :=
  data.filterMap (fun ch =>
    match lookupA hand ch.2 with
    | some ts => if ts.isEmpty then none else some (ch.1, aggRow ts)
    | none => none)

/-- The union of the attribute labels over all aggregated rows: the column
index of `pd.DataFrame(aggregated_data).T` (label order is representation
only). -/
def summaryParams (pairs : List (String × List (String × Option ℚ))) : List String :=
  ((pairs.map (fun pr => pr.2.map Prod.fst)).flatten).dedup

/-- Aligns a raw aggregated row to the common column index, filling `NaN`
for columns the condition never measured. -/
def alignRow (cols : List String) (raw : List (String × Option ℚ)) :
    List (String × Option ℚ) :=
  cols.map (fun p => (p, (lookupA p raw).join))

/-- Row predicate of `dropna(axis=0, how='all')`: every cell missing. -/
def rowAllNone (cells : List (String × Option ℚ)) : Bool :=
  cells.all (fun c => c.2.isNone)

/-- Embeds `analysis.aggregate_task_data_by_hand`: aggregate each condition
that has trials for `hand`, build the summary frame, sort its rows by
`sort_condition_key` (stably), and drop rows that are entirely `NaN`. -/
def aggregate_task_data_by_hand (data : DataMap) (hand : String) : Frame :=
  let pairs := aggregatedPairs data hand
  if pairs.isEmpty then Frame.emptyFrame
  else
    let cols := summaryParams pairs
    let rows := pairs.map (fun pr => (pr.1, alignRow cols pr.2))
    ⟨cols, (stableSortBy (fun r => sort_condition_key r.1) rows).filter
      (fun r => !(rowAllNone r.2))⟩

example : sort_condition_key "Med Off - DBS Off" = 0 := by decide
example : sort_condition_key "DBS On - Pr3" = 3 := by decide
example : sort_condition_key "DBS On" = 100 := by decide
example : sort_condition_key "Med On - DBS On - Level 12" = 12 := by decide
example : sort_condition_key "Something" = 500 := by decide

/-- Embeds `utils.parameter_directions`: whether a higher or a lower value
of each parameter indicates clinical improvement. -/
def parameter_directions : List (String × String) :=
  [("MeanAmplitude", "higher"), ("StdAmplitude", "lower"),
   ("MeanSpeed", "higher"), ("StdSpeed", "lower"),
   ("MeanRMSVelocity", "higher"), ("StdRMSVelocity", "lower"),
   ("MeanOpeningSpeed", "higher"), ("StdOpeningSpeed", "lower"),
   ("MeanClosingSpeed", "higher"), ("StdClosingSpeed", "lower"),
   ("MeanCycleDuration", "lower"), ("StdCycleDuration", "lower"),
   ("RangeCycleDuration", "lower"), ("Frequency", "higher"),
   ("AmplitudeDecay", "lower"), ("VelocityDecay", "lower"),
   ("RateDecay", "lower"), ("CVAmplitude", "lower"),
   ("CVCycleDuration", "lower"), ("CVSpeed", "lower"),
   ("CVRMSVelocity", "lower"), ("CVOpeningSpeed", "lower"),
   ("CVClosingSpeed", "lower")]

/-- Elementwise subtraction of two possibly-missing cells; a missing
operand makes the difference missing (pandas `NaN` arithmetic). -/
def optSub : Option ℚ → Option ℚ → Option ℚ
  | some a, some b => some (a - b)
  | _, _ => none

/-- The baseline row's cells, `summary_df.loc[baseline]` (the pipeline only
reads it after checking the baseline is present). -/
def baselineCells (S : Frame) (baseline : String) : List (String × Option ℚ) :=
  match lookupA baseline S.rows with
  | some cells => cells
  | none => []

/-- Embeds `summary_df.loc[on_conditions].subtract(baseline_series, axis=1)`:
drop the baseline row and subtract the baseline cell per column. -/
def rawChangeFrame (S : Frame) (baseline : String) : Frame :=
  let b := baselineCells S baseline
  ⟨S.params, (S.rows.filter (fun r => r.1 != baseline)).map
    (fun r => (r.1, r.2.map (fun c => (c.1, optSub c.2 (rowCell b c.1)))))⟩

/-- The sign the direction-correction loop applies to a column: `-1` for a
parameter mapped to "lower", `1` otherwise (parameters mapped to "higher"
and parameters absent from the mapping are left untouched). -/
def directionFactor (p : String) : ℚ :=
  if lookupA p parameter_directions = some "lower" then -1 else 1

/-- Embeds the loop `for param, direction in parameter_directions.items():
if param in columns and direction == 'lower': improvement_df[param] *= -1`,
applied cellwise (a missing cell stays missing). -/
def applyDirection (F : Frame) : Frame :=
  ⟨F.params, F.rows.map (fun r => (r.1, r.2.map
    (fun c => (c.1, c.2.map (fun x => x * directionFactor c.1)))))⟩

/-- The direction-corrected improvement matrix of `perform_full_hand_analysis`
(lines 75 to 82 of `analysis.py`). -/
def improvementFrame (S : Frame) (baseline : String) : Frame :=
  applyDirection (rawChangeFrame S baseline)

/-- The defined (non-`NaN`) cells of column `p`, top to bottom: what pandas'
`std()` actually aggregates after skipping `NaN`. -/
def colVals (M : Frame) (p : String) : List ℚ :=
  M.rows.filterMap (fun r => rowCell r.2 p)

/-- Sample variance with `ddof=1` (pandas' default): sum of squared
deviations from the mean over `n - 1`. Only used behind a guard `n ≥ 2`. -/
def sampleVar (xs : List ℚ) : ℚ :=
  ((xs.map (fun x => (x - xs.sum / xs.length) ^ 2)).sum) / ((xs.length : ℚ) - 1)

/-- Embeds `improvement_df.std()` for one column: `NaN` when fewer than two
defined cells remain (ddof = 1), otherwise the square root of the sample
variance of the defined cells. -/
noncomputable def sampleStdCol (M : Frame) (p : String) : Option ℝ :=
  if (colVals M p).length ≤ 1 then none
  else some (Real.sqrt ((sampleVar (colVals M p) : ℚ) : ℝ))

/-- Embeds `improvement_df.std().fillna(0)` for one column. -/
noncomputable def respScore (M : Frame) (p : String) : ℝ :=
  (sampleStdCol M p).getD 0

/-- Embeds the filter `responsiveness_scores[responsiveness_scores > 1e-9]`:
the columns whose filled standard deviation strictly exceeds `1e-9`. -/
noncomputable def responsiveParams (M : Frame) : List String :=
  M.params.filter (fun p => decide ((1e-9 : ℝ) < respScore M p))

/-- The surviving responsiveness series: each responsive parameter paired
with its responsiveness score. -/
noncomputable def respSurvivors (M : Frame) : List (String × ℝ) :=
  (responsiveParams M).map (fun p => (p, respScore M p))

/-- Embeds `data_driven_weights = responsiveness_scores /
responsiveness_scores.sum()`. -/
noncomputable def dataDrivenWeights (resp : List (String × ℝ)) : List (String × ℝ) :=
  resp.map (fun pr => (pr.1, pr.2 / (resp.map Prod.snd).sum))

/-- Embeds `uniform_weights = pd.Series(1.0 / n_responsive_params, index)`. -/
noncomputable def uniformWeights (resp : List (String × ℝ)) : List (String × ℝ) :=
  resp.map (fun pr => (pr.1, 1 / (resp.length : ℝ)))

/-- Embeds `final_dynamic_weights = (1 - shrinkage_lambda) *
data_driven_weights + shrinkage_lambda * uniform_weights`; the two series
share their index, so aligned arithmetic is positional. -/
noncomputable def finalDynamicWeights (resp : List (String × ℝ)) (lam : ℝ) :
    List (String × ℝ) :=
  (dataDrivenWeights resp).zipWith
    (fun d u => (d.1, (1 - lam) * d.2 + lam * u.2)) (uniformWeights resp)

/-- Embeds `common_params = improvement_df.columns.intersection(
final_dynamic_weights.index)`. -/
def commonParams (cols : List String) (w : List (String × ℝ)) : List String :=
  cols.filter (fun p => (w.map Prod.fst).contains p)

/-- One row of `improvement_df[common_params].dot(weights[common_params])`:
the inner product over the common columns; any `NaN` cell in a common
column poisons the whole sum to `NaN`. -/
noncomputable def rowScore (cells : List (String × Option ℚ)) (common : List String)
    (w : List (String × ℝ)) : Option ℝ :=
  if ∀ p ∈ common, (rowCell cells p).isSome then
    some ((common.map
      (fun p => (((rowCell cells p).getD 0 : ℚ) : ℝ) * ((lookupA p w).getD 0))).sum)
  else none

/-- Embeds `dynamic_scores = improvement_df[common_params].dot(
final_dynamic_weights[common_params])`, one score per improvement row. -/
noncomputable def dynamicScores (M : Frame) (w : List (String × ℝ)) :
    List (String × Option ℝ) :=
  M.rows.map (fun r => (r.1, rowScore r.2 (commonParams M.params w) w))

/-- Embeds `dynamic_scores.sort_values(ascending=False)` followed by
`.index.tolist()` / `.values.tolist()`. For `ascending=False` pandas'
`nargsort` reverses the non-`NaN` values together with their positions,
argsorts that ascending, reverses the resulting indexer back, and appends
the `NaN` positions at the end (`na_position='last'`). The double reversal
around a stable ascending argsort produces the descending order in which
equal values keep their original relative order. The ascending argsort is
modelled as stable, exact for numpy's sort below its insertion-sort cutoff
of sixteen elements. -/
noncomputable def rankScores (scores : List (String × Option ℝ)) :
    List String × List (Option ℝ) :=
  let defined := scores.filter (fun s => s.2.isSome)
  let missing := scores.filter (fun s => s.2.isNone)
  let ranked :=
    (stableSortBy (fun s => s.2.getD 0) defined.reverse).reverse ++ missing
  (ranked.map Prod.fst, ranked.map Prod.snd)

/-- The `dynamic_ranking_results` entry of the results dictionary. -/
structure RankingResults where
  ranked_names : List String
  ranked_scores : List (Option ℝ)

/-- The results dictionary of `perform_full_hand_analysis`, with its six
entries. -/
structure AnalysisResults where
  summary_df : Frame
  improvement_df : Frame
  responsiveness_scores : List (String × ℝ)
  final_dynamic_weights : List (String × ℝ)
  dynamic_scores : List (String × Option ℝ)
  dynamic_ranking_results : RankingResults

/-- Embeds `analysis.perform_full_hand_analysis`: aggregate, abort early
(returning the pre-built empty-but-typed results) when the summary is empty
(either axis, pandas `.empty`), the baseline row is absent, or no
non-baseline rows remain; build the improvement matrix; estimate and filter
responsiveness, aborting when no responsive parameter survives or the
total responsiveness is zero; blend weights; score and rank. -/
noncomputable def perform_full_hand_analysis (data : DataMap)
    (hand baseline : String) (shrinkage_lambda : ℝ) : AnalysisResults :=
  let summary := aggregate_task_data_by_hand data hand
  let base : AnalysisResults := ⟨summary, Frame.emptyFrame, [], [], [], ⟨[], []⟩⟩
  if summary.rows = [] ∨ summary.params = [] ∨ baseline ∉ summary.rows.map Prod.fst then
    base
  else
    let on_conditions := (summary.rows.map Prod.fst).filter (fun c => c != baseline)
    if on_conditions = [] then base
    else
      let improvement := improvementFrame summary baseline
      let resp := respSurvivors improvement
      let base2 : AnalysisResults :=
        { base with improvement_df := improvement, responsiveness_scores := resp }
      if resp = [] ∨ (resp.map Prod.snd).sum = 0 then base2
      else
        let w := finalDynamicWeights resp shrinkage_lambda
        let scores := dynamicScores improvement w
        let rr := rankScores scores
        { base2 with final_dynamic_weights := w, dynamic_scores := scores,
                     dynamic_ranking_results := ⟨rr.1, rr.2⟩ }

theorem insertSorted_perm {α κ : Type} [LinearOrder κ] (key : α → κ) (x : α)
    (l : List α) : (insertSorted key x l).Perm (x :: l) := by
  induction l with
  | nil => simp [insertSorted]
  | cons y ys ih =>
    simp only [insertSorted]
    split
    · exact List.Perm.refl _
    · exact (ih.cons y).trans (List.Perm.swap x y ys)

theorem stableSortBy_perm {α κ : Type} [LinearOrder κ] (key : α → κ)
    (l : List α) : (stableSortBy key l).Perm l := by
  induction l with
  | nil => simp [stableSortBy]
  | cons x xs ih =>
    exact (insertSorted_perm key x _).trans (ih.cons x)

theorem insertSorted_pairwise {α κ : Type} [LinearOrder κ] {key : α → κ} {x : α}
    {l : List α} (h : l.Pairwise (fun a b => key a ≤ key b)) :
    (insertSorted key x l).Pairwise (fun a b => key a ≤ key b) := by
  induction l with
  | nil => simp [insertSorted]
  | cons y ys ih =>
    rw [List.pairwise_cons] at h
    simp only [insertSorted]
    split
    · rename_i hxy
      rw [List.pairwise_cons]
      refine ⟨?_, List.pairwise_cons.mpr h⟩
      intro b hb
      rcases List.mem_cons.mp hb with rfl | hb
      · exact hxy
      · exact le_trans hxy (h.1 b hb)
    · rename_i hxy
      rw [List.pairwise_cons]
      refine ⟨?_, ih h.2⟩
      intro b hb
      have hb' := (insertSorted_perm key x ys).mem_iff.mp hb
      rcases List.mem_cons.mp hb' with rfl | hb'
      · exact (lt_of_not_le hxy).le
      · exact h.1 b hb'

theorem stableSortBy_pairwise {α κ : Type} [LinearOrder κ] (key : α → κ)
    (l : List α) :
    (stableSortBy key l).Pairwise (fun a b => key a ≤ key b) := by
  induction l with
  | nil => simp [stableSortBy]
  | cons x xs ih => exact insertSorted_pairwise ih

theorem insertSorted_of_key_eq {α κ : Type} [LinearOrder κ] {key : α → κ}
    (hconst : ∀ a b, key a = key b) (x : α) (l : List α) :
    insertSorted key x l = x :: l := by
  cases l with
  | nil => rfl
  | cons y ys => simp [insertSorted, (hconst x y).le]

theorem stableSortBy_of_key_eq {α κ : Type} [LinearOrder κ] {key : α → κ}
    (hconst : ∀ a b, key a = key b) (l : List α) :
    stableSortBy key l = l := by
  induction l with
  | nil => rfl
  | cons x xs ih => rw [stableSortBy, ih, insertSorted_of_key_eq hconst]

theorem lookupA_keyed_map {γ : Type} (k : String) (cols : List String)
    (f : String → γ) :
    lookupA k (cols.map (fun q => (q, f q))) =
      if k ∈ cols then some (f k) else none := by
  induction cols with
  | nil => simp [lookupA]
  | cons q qs ih =>
    by_cases hq : q = k
    · subst hq
      simp [lookupA, List.find?]
    · rw [List.map_cons]
      unfold lookupA
      rw [List.find?]
      have hne : ((q, f q).1 == k) = false := by simpa using hq
      rw [hne]
      have hk : ¬(k = q) := fun h => hq h.symm
      simp only [List.mem_cons, hk, false_or]
      simpa [lookupA] using ih

theorem lookupA_isSome_iff {β : Type} (k : String) (l : List (String × β)) :
    (lookupA k l).isSome = true ↔ k ∈ l.map Prod.fst := by
  induction l with
  | nil => simp [lookupA]
  | cons kv rest ih =>
    by_cases hk : kv.1 = k
    · subst hk
      simp [lookupA, List.find?]
    · unfold lookupA
      rw [List.find?]
      have hne : (kv.1 == k) = false := by simpa using hk
      rw [hne]
      have hk' : ¬(k = kv.1) := fun h => hk h.symm
      simp only [List.map_cons, List.mem_cons, hk', false_or]
      simpa [lookupA] using ih

theorem lookupA_of_mem_nodup {β : Type} {l : List (String × β)} {k : String}
    {v : β} (hnd : (l.map Prod.fst).Nodup) (hmem : (k, v) ∈ l) :
    lookupA k l = some v := by
  induction l with
  | nil => simp at hmem
  | cons kv rest ih =>
    rw [List.map_cons, List.nodup_cons] at hnd
    rcases List.mem_cons.mp hmem with rfl | hmem
    · simp [lookupA, List.find?]
    · have hk : kv.1 ≠ k := by
        intro h
        exact hnd.1 (h ▸ (List.mem_map.mpr ⟨(k, v), hmem, rfl⟩))
      unfold lookupA
      rw [List.find?]
      have : (kv.1 == k) = false := by simpa using hk
      rw [this]
      exact ih hnd.2 hmem

/-- C8: every `ConditionSummary` produced by the trial aggregator has its
rows in nondecreasing `sort_condition_key` order (the fixed domain
ordering: "dbs off" conditions first, then numbered programs ascending,
then other "on" conditions, then catch-all), and contains no row all of
whose cells are undefined. -/
theorem summary_sorted_no_all_nan (data : DataMap) (hand : String) :
    ((aggregate_task_data_by_hand data hand).rows).Pairwise
      (fun a b => sort_condition_key a.1 ≤ sort_condition_key b.1) ∧
    ∀ r ∈ (aggregate_task_data_by_hand data hand).rows,
      rowAllNone r.2 = false := by
  simp only [aggregate_task_data_by_hand]
  split
  · simp [Frame.emptyFrame]
  · refine ⟨(stableSortBy_pairwise _ _).filter _, ?_⟩
    intro r hr
    have := List.of_mem_filter hr
    simpa using this

/-- C4: on every abort path (summary empty on either axis, baseline absent
from the summary's index, or no non-baseline rows remaining) the pipeline
returns, without raising, the six-field results dictionary with the later
stages in their empty-but-typed shape. -/
theorem perform_abort_empty_shape (data : DataMap) (hand baseline : String)
    (lam : ℝ)
    (h : (aggregate_task_data_by_hand data hand).rows = []
       ∨ (aggregate_task_data_by_hand data hand).params = []
       ∨ baseline ∉ (aggregate_task_data_by_hand data hand).rows.map Prod.fst
       ∨ ((aggregate_task_data_by_hand data hand).rows.map Prod.fst).filter
           (fun c => c != baseline) = []) :
    perform_full_hand_analysis data hand baseline lam =
      ⟨aggregate_task_data_by_hand data hand, Frame.emptyFrame, [], [], [],
        ⟨[], []⟩⟩ := by
  simp only [perform_full_hand_analysis]
  rcases h with h | h | h | h
  · rw [if_pos (Or.inl h)]
  · rw [if_pos (Or.inr (Or.inl h))]
  · rw [if_pos (Or.inr (Or.inr h))]
  · by_cases hc : (aggregate_task_data_by_hand data hand).rows = []
       ∨ (aggregate_task_data_by_hand data hand).params = []
       ∨ baseline ∉ (aggregate_task_data_by_hand data hand).rows.map Prod.fst
    · rw [if_pos hc]
    · rw [if_neg hc, if_pos h]

theorem perform_abort_empty_shape_witness :
    (aggregate_task_data_by_hand [] "Right").rows = [] ∧
    perform_full_hand_analysis [] "Right" "Med Off - DBS Off" (1/10) =
      ⟨aggregate_task_data_by_hand [] "Right", Frame.emptyFrame, [], [], [],
        ⟨[], []⟩⟩ :=
  ⟨rfl, perform_abort_empty_shape [] "Right" "Med Off - DBS Off" (1/10)
    (Or.inl rfl)⟩

theorem finalDynamicWeights_eq_map (resp : List (String × ℝ)) (lam : ℝ) :
    finalDynamicWeights resp lam =
      resp.map (fun pr => (pr.1,
        (1 - lam) * (pr.2 / (resp.map Prod.snd).sum) +
          lam * (1 / (resp.length : ℝ)))) := by
  unfold finalDynamicWeights dataDrivenWeights uniformWeights
  rw [List.zipWith_map_left, List.zipWith_map_right, List.zipWith_same]

theorem sum_map_blend (l : List (String × ℝ)) (lam T n : ℝ) :
    ((l.map (fun pr => (pr.1, (1 - lam) * (pr.2 / T) + lam * (1 / n)))).map
        Prod.snd).sum
      = (1 - lam) * ((l.map Prod.snd).sum / T)
        + (l.length : ℝ) * (lam * (1 / n)) := by
  induction l with
  | nil => simp
  | cons x xs ih =>
    simp only [List.map_cons, List.sum_cons, ih, List.length_cons]
    push_cast
    ring

/-- C1: for every nonempty positive responsiveness vector and every
shrinkage parameter in `[0, 1]`, the blended final weight vector
`(1 - lambda) * data_driven + lambda * uniform` sums to 1 over the
surviving parameters. -/
theorem final_weights_sum_one (resp : List (String × ℝ)) (lam : ℝ)
    (h0 : 0 ≤ lam) (h1 : lam ≤ 1) (hne : resp ≠ [])
    (hpos : ∀ pr ∈ resp, 0 < pr.2) :
    ((finalDynamicWeights resp lam).map Prod.snd).sum = 1 := by
  have hT : 0 < (resp.map Prod.snd).sum := by
    apply List.sum_pos
    · intro x hx
      rcases List.mem_map.mp hx with ⟨pr, hpr, rfl⟩
      exact hpos pr hpr
    · simpa using hne
  have hn : (0 : ℝ) < (resp.length : ℝ) := by
    have h := List.length_pos.mpr hne
    exact_mod_cast h
  rw [finalDynamicWeights_eq_map, sum_map_blend, div_self hT.ne']
  field_simp

theorem final_weights_sum_one_witness :
    ((finalDynamicWeights [("MeanSpeed", (2 : ℝ))] (1/10)).map Prod.snd).sum
      = 1 :=
  final_weights_sum_one [("MeanSpeed", (2 : ℝ))] (1/10) (by norm_num)
    (by norm_num) (by simp) (by
      intro pr hpr
      simp only [List.mem_singleton] at hpr
      subst hpr
      norm_num)

/-- C6: with a nonempty survivor set, shrinkage 0 makes each final weight
the parameter's responsiveness divided by the total responsiveness (pure
proportional weighting), and shrinkage 1 makes each final weight exactly
one over the number of surviving parameters (exact uniform weighting). -/
theorem weights_lambda_extremes (resp : List (String × ℝ)) (hne : resp ≠ []) :
    finalDynamicWeights resp 0 =
      resp.map (fun pr => (pr.1, pr.2 / (resp.map Prod.snd).sum)) ∧
    finalDynamicWeights resp 1 =
      resp.map (fun pr => (pr.1, 1 / (resp.length : ℝ))) := by
  constructor
  · rw [finalDynamicWeights_eq_map]
    simp
  · rw [finalDynamicWeights_eq_map]
    simp

theorem weights_lambda_extremes_witness :
    finalDynamicWeights [("MeanSpeed", (2 : ℝ))] 0 =
      [("MeanSpeed", (2 : ℝ))].map
        (fun pr => (pr.1, pr.2 / ([("MeanSpeed", (2 : ℝ))].map Prod.snd).sum)) ∧
    finalDynamicWeights [("MeanSpeed", (2 : ℝ))] 1 =
      [("MeanSpeed", (2 : ℝ))].map
        (fun pr => (pr.1, 1 / (([("MeanSpeed", (2 : ℝ))].length : ℝ)))) :=
  weights_lambda_extremes [("MeanSpeed", (2 : ℝ))] (by simp)

theorem sublist_insertSorted {α κ : Type} [LinearOrder κ] (key : α → κ)
    (x : α) (l : List α) : l.Sublist (insertSorted key x l) := by
  induction l with
  | nil => exact List.nil_sublist _
  | cons y ys ih =>
    simp only [insertSorted]
    split
    · exact List.Sublist.cons x (List.Sublist.refl (y :: ys))
    · exact List.Sublist.cons₂ y ih

theorem pair_sublist_insertSorted {α κ : Type} [LinearOrder κ] {key : α → κ}
    {x y : α} (hxy : key x ≤ key y) :
    ∀ {l : List α}, y ∈ l → [x, y].Sublist (insertSorted key x l) := by
  intro l
  induction l with
  | nil =>
    intro h
    exact absurd h (List.not_mem_nil y)
  | cons w ws ih =>
    intro hy
    simp only [insertSorted]
    split
    · exact List.Sublist.cons₂ x (List.singleton_sublist.mpr hy)
    · rename_i hc
      rcases List.mem_cons.mp hy with rfl | hy'
      · exact absurd hxy hc
      · exact List.Sublist.cons w (ih hy')

theorem tie_sublist_stableSortBy {α κ : Type} [LinearOrder κ] {key : α → κ}
    {x y : α} (hxy : key x ≤ key y) :
    ∀ {l : List α}, [x, y].Sublist l →
      [x, y].Sublist (stableSortBy key l) := by
  intro l
  induction l with
  | nil =>
    intro h
    exact h
  | cons z zs ih =>
    intro hsub
    rw [stableSortBy]
    cases hsub with
    | cons _ h => exact (ih h).trans (sublist_insertSorted key z _)
    | cons₂ _ h =>
      exact pair_sublist_insertSorted hxy
        ((stableSortBy_perm key zs).mem_iff.mpr (List.singleton_sublist.mp h))

theorem get_append_descending {l1 l2 : List (Option ℝ)}
    (hdesc : List.Pairwise (fun u v : Option ℝ => v.getD 0 ≤ u.getD 0) l1)
    (h2 : ∀ x ∈ l2, x = none) {i j : ℕ} {vi vj : ℝ} (hij : i < j)
    (hi : (l1 ++ l2).get? i = some (some vi))
    (hj : (l1 ++ l2).get? j = some (some vj)) : vj ≤ vi := by
  have hjlen : j < l1.length := by
    by_contra hge
    push_neg at hge
    rw [List.get?_append_right hge] at hj
    have := h2 (some vj) (List.get?_mem hj)
    simp at this
  have hilen : i < l1.length := lt_trans hij hjlen
  rw [List.get?_append hilen] at hi
  rw [List.get?_append hjlen] at hj
  rw [List.get?_eq_get hilen] at hi
  rw [List.get?_eq_get hjlen] at hj
  have hi' : l1.get ⟨i, hilen⟩ = some vi := Option.some.inj hi
  have hj' : l1.get ⟨j, hjlen⟩ = some vj := Option.some.inj hj
  have hrel := List.pairwise_iff_get.mp hdesc ⟨i, hilen⟩ ⟨j, hjlen⟩
    (Fin.mk_lt_mk.mpr hij)
  rw [hi', hj'] at hrel
  simpa using hrel

/-- C3: the ranking stage sorts conditions by descending composite score
with a stable sort: any two conditions carrying equal defined scores keep
their relative order from the score series (and hence from the
`ConditionSummary`), undefined scores are appended at the end, and the
defined scores appear in nonincreasing order, making the output
deterministic. -/
theorem ranking_stable_ties (scores : List (String × Option ℝ))
    (a b : String × Option ℝ) (va vb : ℝ)
    (ha : a.2 = some va) (hb : b.2 = some vb) (heq : va = vb)
    (hsub : [a, b].Sublist scores) :
    [a.1, b.1].Sublist (rankScores scores).1 ∧
    (∀ (i j : ℕ) (vi vj : ℝ), i < j →
      (rankScores scores).2.get? i = some (some vi) →
      (rankScores scores).2.get? j = some (some vj) → vj ≤ vi) := by
  constructor
  · have hdef : [a, b].Sublist (scores.filter (fun s => s.2.isSome)) := by
      have hf := hsub.filter (fun s => s.2.isSome)
      have hfl : [a, b].filter (fun s : String × Option ℝ => s.2.isSome)
          = [a, b] := by
        simp [List.filter_cons, ha, hb]
      rwa [hfl] at hf
    have hrev : [b, a].Sublist
        ((scores.filter (fun s => s.2.isSome)).reverse) := by
      have h2 := hdef.reverse
      simpa using h2
    have hkey : b.2.getD 0 ≤ a.2.getD 0 := by
      rw [ha, hb, heq]
    have hsort := @tie_sublist_stableSortBy (String × Option ℝ) ℝ _
      (fun s => s.2.getD 0) b a hkey
      ((scores.filter (fun s => s.2.isSome)).reverse) hrev
    have hrev2 : [a, b].Sublist
        ((stableSortBy (fun s : String × Option ℝ => s.2.getD 0)
          ((scores.filter (fun s => s.2.isSome)).reverse)).reverse) := by
      have h3 := hsort.reverse
      simpa using h3
    have hranked := (hrev2.trans
      (List.sublist_append_left _ (scores.filter (fun s => s.2.isNone)))).map
        Prod.fst
    simpa only [rankScores, List.map_cons, List.map_nil] using hranked
  · intro i j vi vj hij hi hj
    have hsnd : (rankScores scores).2
        = ((stableSortBy (fun s : String × Option ℝ => s.2.getD 0)
            ((scores.filter (fun s => s.2.isSome)).reverse)).reverse).map
              Prod.snd
          ++ (scores.filter (fun s => s.2.isNone)).map Prod.snd := by
      simp only [rankScores, List.map_append]
    rw [hsnd] at hi hj
    refine get_append_descending ?_ ?_ hij hi hj
    · rw [List.pairwise_map, List.pairwise_reverse]
      exact stableSortBy_pairwise _ _
    · intro x hx
      rcases List.mem_map.mp hx with ⟨y, hy, rfl⟩
      have := List.of_mem_filter hy
      simpa [Option.isNone_iff_eq_none] using this

theorem ranking_stable_ties_witness :
    ["A", "B"].Sublist
      (rankScores [("A", some (1 : ℝ)), ("B", some 1)]).1 ∧
    (∀ (i j : ℕ) (vi vj : ℝ), i < j →
      (rankScores [("A", some (1 : ℝ)), ("B", some 1)]).2.get? i
          = some (some vi) →
      (rankScores [("A", some (1 : ℝ)), ("B", some 1)]).2.get? j
          = some (some vj) → vj ≤ vi) :=
  ranking_stable_ties [("A", some (1 : ℝ)), ("B", some 1)]
    ("A", some 1) ("B", some 1) 1 1 rfl rfl rfl (List.Sublist.refl _)

theorem rowCell_map_cells_opt (cells : List (String × Option ℚ))
    (g : String → Option ℚ → Option ℚ) (hg : ∀ q, g q none = none)
    (p : String) :
    rowCell (cells.map (fun cc => (cc.1, g cc.1 cc.2))) p
      = g p (rowCell cells p) := by
  induction cells with
  | nil => simp [rowCell, lookupA, hg]
  | cons cc rest ih =>
    by_cases hc : cc.1 = p
    · subst hc
      simp [rowCell, lookupA, List.find?]
    · unfold rowCell lookupA
      rw [List.map_cons, List.find?_cons_of_neg, List.find?_cons_of_neg]
      · exact ih
      · simpa using hc
      · simpa using hc

theorem lookupA_map_snd {β γ : Type} (c : String) (rows : List (String × β))
    (g : β → γ) :
    lookupA c (rows.map (fun r => (r.1, g r.2))) = (lookupA c rows).map g := by
  induction rows with
  | nil => rfl
  | cons r rest ih =>
    by_cases hc : r.1 = c
    · simp [lookupA, List.find?_cons_of_pos, hc]
    · unfold lookupA
      rw [List.map_cons, List.find?_cons_of_neg, List.find?_cons_of_neg]
      · exact ih
      · simpa using hc
      · simpa using hc

theorem cell_applyDirection (F : Frame) (c p : String) :
    (applyDirection F).cell c p
      = (F.cell c p).map (fun x => x * directionFactor p) := by
  unfold applyDirection Frame.cell
  rw [lookupA_map_snd]
  cases lookupA c F.rows with
  | none => rfl
  | some cells =>
    simp only [Option.map_some']
    exact rowCell_map_cells_opt cells
      (fun q v => v.map (fun x => x * directionFactor q)) (fun q => rfl) p

/-- C2: the improvement calculator negates the raw baseline-relative delta
of every parameter mapped to "lower" (so a raw decrease becomes a positive
corrected improvement), leaves "higher" parameters unchanged (so a raw
increase is a positive corrected improvement), and leaves parameters absent
from the direction mapping with their raw, uncorrected sign. -/
theorem improvement_direction_correction (S : Frame) (baseline c p : String) :
    (lookupA p parameter_directions = some "lower" →
      (improvementFrame S baseline).cell c p
        = ((rawChangeFrame S baseline).cell c p).map (fun x => -x) ∧
      ∀ d : ℚ, (rawChangeFrame S baseline).cell c p = some d → d < 0 →
        (improvementFrame S baseline).cell c p = some (-d) ∧ 0 < -d) ∧
    (lookupA p parameter_directions = some "higher" →
      (improvementFrame S baseline).cell c p
        = (rawChangeFrame S baseline).cell c p ∧
      ∀ d : ℚ, (rawChangeFrame S baseline).cell c p = some d → 0 < d →
        (improvementFrame S baseline).cell c p = some d ∧ 0 < d) ∧
    (lookupA p parameter_directions = none →
      (improvementFrame S baseline).cell c p
        = (rawChangeFrame S baseline).cell c p) := by
  have hbase := cell_applyDirection (rawChangeFrame S baseline) c p
  refine ⟨fun hlow => ?_, fun hhigh => ?_, fun habs => ?_⟩
  · have hfac : directionFactor p = -1 := by
      unfold directionFactor
      rw [if_pos hlow]
    have hcell : (improvementFrame S baseline).cell c p
        = ((rawChangeFrame S baseline).cell c p).map (fun x => -x) := by
      unfold improvementFrame
      rw [hbase, hfac]
      cases (rawChangeFrame S baseline).cell c p <;> simp
    refine ⟨hcell, fun d hd hneg => ?_⟩
    rw [hcell, hd]
    exact ⟨rfl, by linarith⟩
  · have hfac : directionFactor p = 1 := by
      unfold directionFactor
      rw [if_neg]
      rw [hhigh]
      decide
    have hcell : (improvementFrame S baseline).cell c p
        = (rawChangeFrame S baseline).cell c p := by
      unfold improvementFrame
      rw [hbase, hfac]
      cases (rawChangeFrame S baseline).cell c p <;> simp
    refine ⟨hcell, fun d hd hpos => ?_⟩
    rw [hcell, hd]
    exact ⟨rfl, hpos⟩
  · have hfac : directionFactor p = 1 := by
      unfold directionFactor
      rw [if_neg]
      rw [habs]
      decide
    unfold improvementFrame
    rw [hbase, hfac]
    cases (rawChangeFrame S baseline).cell c p <;> simp

/-- A two-condition summary used to exercise the direction correction:
baseline "dbs off" and one stimulation-on condition "pr1", with a
higher-is-better parameter, a lower-is-better parameter, and a parameter
absent from the direction mapping. -/
def demoSummary : Frame :=
  ⟨["MeanSpeed", "StdSpeed", "FooBar"],
   [("dbs off", [("MeanSpeed", some 8), ("StdSpeed", some 5), ("FooBar", some 1)]),
    ("pr1", [("MeanSpeed", some 11), ("StdSpeed", some 3), ("FooBar", some 4)])]⟩

theorem improvement_direction_correction_witness :
    ((improvementFrame demoSummary "dbs off").cell "pr1" "StdSpeed"
        = some (-(-2 : ℚ)) ∧ 0 < -(-2 : ℚ)) ∧
    ((improvementFrame demoSummary "dbs off").cell "pr1" "MeanSpeed"
        = some (3 : ℚ) ∧ 0 < (3 : ℚ)) ∧
    (improvementFrame demoSummary "dbs off").cell "pr1" "FooBar"
        = (rawChangeFrame demoSummary "dbs off").cell "pr1" "FooBar" :=
  ⟨((improvement_direction_correction demoSummary "dbs off" "pr1" "StdSpeed").1
      (by decide)).2 (-2)
      (by simp [rawChangeFrame, Frame.cell, demoSummary, baselineCells, lookupA,
            List.find?, rowCell, optSub] <;> norm_num)
      (by norm_num),
   ((improvement_direction_correction demoSummary "dbs off" "pr1" "MeanSpeed").2.1
      (by decide)).2 3
      (by simp [rawChangeFrame, Frame.cell, demoSummary, baselineCells, lookupA,
            List.find?, rowCell, optSub] <;> norm_num)
      (by norm_num),
   (improvement_direction_correction demoSummary "dbs off" "pr1" "FooBar").2.2
      (by decide)⟩

/-- C5: the responsiveness estimator computes, per parameter column, the
sample standard deviation of the defined improvement cells across the
non-baseline conditions (undefined cells are excluded from the computation,
not treated as zero), replaces an undefined standard deviation (fewer than
two defined cells, ddof = 1) by 0, discards every parameter whose
responsiveness is below the fixed epsilon `1e-9`, and when the survivor set
is empty or the total responsiveness is zero the pipeline aborts with the
weight and score stages left empty. -/
theorem responsiveness_estimator_spec :
    (∀ (M : Frame) (p : String), 2 ≤ (colVals M p).length →
      0 ≤ respScore M p ∧
        respScore M p ^ 2 = ((sampleVar (colVals M p) : ℚ) : ℝ)) ∧
    (∀ (M : Frame) (p name : String) (cells : List (String × Option ℚ)),
      rowCell cells p = none →
      respScore ⟨M.params, M.rows ++ [(name, cells)]⟩ p = respScore M p) ∧
    (∀ (M : Frame) (p : String), (colVals M p).length ≤ 1 →
      respScore M p = 0) ∧
    (∀ (M : Frame) (p : String), respScore M p < 1e-9 →
      p ∉ responsiveParams M) ∧
    (∀ (data : DataMap) (hand baseline : String) (lam : ℝ),
      (respSurvivors (improvementFrame
          (aggregate_task_data_by_hand data hand) baseline) = [] ∨
        ((respSurvivors (improvementFrame
          (aggregate_task_data_by_hand data hand) baseline)).map
            Prod.snd).sum = 0) →
      (perform_full_hand_analysis data hand baseline lam).final_dynamic_weights
          = [] ∧
      (perform_full_hand_analysis data hand baseline lam).dynamic_scores
          = [] ∧
      (perform_full_hand_analysis data hand baseline
          lam).dynamic_ranking_results.ranked_names = [] ∧
      (perform_full_hand_analysis data hand baseline
          lam).dynamic_ranking_results.ranked_scores = []) := by
  refine ⟨?_, ?_, ?_, ?_, ?_⟩
  · intro M p hn
    have hvq : (0 : ℚ) ≤ sampleVar (colVals M p) := by
      unfold sampleVar
      apply div_nonneg
      · apply List.sum_nonneg
        intro x hx
        rcases List.mem_map.mp hx with ⟨q, hq, rfl⟩
        positivity
      · have h2 : (2 : ℚ) ≤ ((colVals M p).length : ℚ) := by exact_mod_cast hn
        linarith
    have hvar : (0 : ℝ) ≤ ((sampleVar (colVals M p) : ℚ) : ℝ) := by
      exact_mod_cast hvq
    have hstd : respScore M p
        = Real.sqrt ((sampleVar (colVals M p) : ℚ) : ℝ) := by
      unfold respScore sampleStdCol
      rw [if_neg (by omega)]
      rfl
    exact ⟨hstd ▸ Real.sqrt_nonneg _, by rw [hstd, Real.sq_sqrt hvar]⟩
  · intro M p name cells hnone
    have hcol : colVals ⟨M.params, M.rows ++ [(name, cells)]⟩ p
        = colVals M p := by
      unfold colVals
      rw [List.filterMap_append]
      simp [hnone]
    unfold respScore sampleStdCol
    rw [hcol]
  · intro M p hle
    unfold respScore sampleStdCol
    rw [if_pos hle]
    rfl
  · intro M p hlt hcontra
    have h := List.of_mem_filter hcontra
    rw [decide_eq_true_eq] at h
    linarith
  · intro data hand baseline lam habort
    simp only [perform_full_hand_analysis]
    split
    · exact ⟨rfl, rfl, rfl, rfl⟩
    · split
      · exact ⟨rfl, rfl, rfl, rfl⟩
      · exact ⟨rfl, rfl, rfl, rfl⟩

/-- Scenario exercising the responsiveness abort: one baseline trial and
one stimulation-on condition, so the single improvement row leaves every
column with at most one defined cell and zero responsiveness. -/
def demoAbortData : DataMap :=
  [("dbs off", [("Right", [[("MeanSpeed", RawValue.num 8)]])]),
   ("pr1", [("Right", [[("MeanSpeed", RawValue.num 10)],
                       [("MeanSpeed", RawValue.num 12)]])])]

theorem responsiveness_estimator_spec_witness :
    (perform_full_hand_analysis demoAbortData "Right" "dbs off"
        (1/10)).final_dynamic_weights = [] ∧
    (perform_full_hand_analysis demoAbortData "Right" "dbs off"
        (1/10)).dynamic_scores = [] ∧
    (perform_full_hand_analysis demoAbortData "Right" "dbs off"
        (1/10)).dynamic_ranking_results.ranked_names = [] ∧
    (perform_full_hand_analysis demoAbortData "Right" "dbs off"
        (1/10)).dynamic_ranking_results.ranked_scores = [] :=
  responsiveness_estimator_spec.2.2.2.2 demoAbortData "Right" "dbs off" (1/10)
    (Or.inl (by
      have hlen : (colVals (improvementFrame
          (aggregate_task_data_by_hand demoAbortData "Right") "dbs off")
          "MeanSpeed").length ≤ 1 := by decide
      have hparams : (improvementFrame
          (aggregate_task_data_by_hand demoAbortData "Right") "dbs off").params
          = ["MeanSpeed"] := by decide
      have h0 : respScore (improvementFrame
          (aggregate_task_data_by_hand demoAbortData "Right") "dbs off")
          "MeanSpeed" = 0 := by
        unfold respScore sampleStdCol
        rw [if_pos hlen]
        rfl
      unfold respSurvivors responsiveParams
      rw [List.map_eq_nil, List.filter_eq_nil]
      intro p hp
      rw [hparams] at hp
      simp only [List.mem_singleton] at hp
      subst hp
      rw [decide_eq_true_eq, h0]
      norm_num))

theorem mem_reverse_sort_isSome (scores : List (String × Option ℝ))
    {x : String × Option ℝ}
    (hx : x ∈ (stableSortBy (fun s => s.2.getD 0)
        ((scores.filter (fun s => s.2.isSome)).reverse)).reverse) :
    x.2.isSome = true := by
  rw [List.mem_reverse] at hx
  have hx' := (stableSortBy_perm _ _).mem_iff.mp hx
  rw [List.mem_reverse] at hx'
  exact (List.mem_filter.mp hx').2

theorem get_append_some_before_none {l1 l2 : List (Option ℝ)}
    (h1 : ∀ x ∈ l1, x.isSome = true) (h2 : ∀ x ∈ l2, x = none)
    {i j : ℕ} {vj : ℝ} (hi : (l1 ++ l2).get? i = some none)
    (hj : (l1 ++ l2).get? j = some (some vj)) : j < i := by
  have hilen : l1.length ≤ i := by
    by_contra hlt
    push_neg at hlt
    rw [List.get?_append hlt] at hi
    have := h1 none (List.get?_mem hi)
    simp at this
  have hjlen : j < l1.length := by
    by_contra hge
    push_neg at hge
    rw [List.get?_append_right hge] at hj
    have := h2 (some vj) (List.get?_mem hj)
    simp at this
  omega

/-- C10: a condition whose improvement row is missing a value at any
parameter of the common scoring set receives an undefined (`NaN`) composite
score, not one computed from the remaining parameters, and the ranking
places every such condition after all conditions with defined scores. -/
theorem nan_score_ranked_last (M : Frame) (w : List (String × ℝ))
    (c : String) (cells : List (String × Option ℚ)) (p : String)
    (hrow : (c, cells) ∈ M.rows) (hp : p ∈ commonParams M.params w)
    (hnan : rowCell cells p = none) :
    (c, (none : Option ℝ)) ∈ dynamicScores M w ∧
    (∀ (i j : ℕ) (vj : ℝ),
      (rankScores (dynamicScores M w)).2.get? i = some none →
      (rankScores (dynamicScores M w)).2.get? j = some (some vj) → j < i) ∧
    (c, (none : Option ℝ)) ∈
      ((rankScores (dynamicScores M w)).1.zip
        (rankScores (dynamicScores M w)).2) := by
  have hscore : rowScore cells (commonParams M.params w) w = none := by
    unfold rowScore
    rw [if_neg]
    intro hall
    have := hall p hp
    rw [hnan] at this
    simp at this
  have hmem : (c, (none : Option ℝ)) ∈ dynamicScores M w := by
    unfold dynamicScores
    refine List.mem_map.mpr ⟨(c, cells), hrow, ?_⟩
    rw [hscore]
  have hzip : ((rankScores (dynamicScores M w)).1.zip
      (rankScores (dynamicScores M w)).2)
      = (stableSortBy (fun s => s.2.getD 0)
          (((dynamicScores M w).filter (fun s => s.2.isSome)).reverse)).reverse
        ++ (dynamicScores M w).filter (fun s => s.2.isNone) := by
    unfold rankScores
    rw [List.zip_map']
    simp
  refine ⟨hmem, ?_, ?_⟩
  · intro i j vj hi hj
    have hsnd : (rankScores (dynamicScores M w)).2
        = ((stableSortBy (fun s => s.2.getD 0)
            (((dynamicScores M w).filter
              (fun s => s.2.isSome)).reverse)).reverse).map Prod.snd
          ++ ((dynamicScores M w).filter (fun s => s.2.isNone)).map
              Prod.snd := by
      simp only [rankScores, List.map_append]
    rw [hsnd] at hi hj
    refine get_append_some_before_none ?_ ?_ hi hj
    · intro x hx
      rcases List.mem_map.mp hx with ⟨y, hy, rfl⟩
      exact mem_reverse_sort_isSome _ hy
    · intro x hx
      rcases List.mem_map.mp hx with ⟨y, hy, rfl⟩
      have := List.of_mem_filter hy
      simpa [Option.isNone_iff_eq_none] using this
  · rw [hzip]
    refine List.mem_append.mpr (Or.inr ?_)
    refine List.mem_filter.mpr ⟨hmem, rfl⟩

/-- An improvement matrix and weight vector exercising an undefined score:
condition "A" is missing parameter "Q", which the weight index covers. -/
def demoImprovement : Frame :=
  ⟨["P", "Q"], [("A", [("P", some 1), ("Q", none)]),
                ("B", [("P", some 2), ("Q", some 3)])]⟩

/-- Weights over both parameters of `demoImprovement`. -/
def demoWeights : List (String × ℝ) := [("P", 1), ("Q", 1)]

theorem nan_score_ranked_last_witness :
    ("A", (none : Option ℝ)) ∈ dynamicScores demoImprovement demoWeights ∧
    (∀ (i j : ℕ) (vj : ℝ),
      (rankScores (dynamicScores demoImprovement demoWeights)).2.get? i
          = some none →
      (rankScores (dynamicScores demoImprovement demoWeights)).2.get? j
          = some (some vj) → j < i) ∧
    ("A", (none : Option ℝ)) ∈
      ((rankScores (dynamicScores demoImprovement demoWeights)).1.zip
        (rankScores (dynamicScores demoImprovement demoWeights)).2) :=
  nan_score_ranked_last demoImprovement demoWeights "A"
    [("P", some 1), ("Q", none)] "Q"
    (by simp [demoImprovement])
    (by simp [commonParams, demoImprovement, demoWeights])
    (by decide)

theorem lookupA_aggRow (ts : List Trial) (p : String) :
    lookupA p (aggRow ts)
      = if p ∈ condParams ts then some (meanOpt (collectVals ts p))
        else none := by
  unfold aggRow
  exact lookupA_keyed_map p (condParams ts) _

theorem collectVals_eq_nil_of_not_mem (ts : List Trial) (p : String)
    (h : p ∉ condParams ts) : collectVals ts p = [] := by
  unfold collectVals
  rw [List.filterMap_eq_nil]
  intro t ht
  have hp : p ∉ t.map Prod.fst := by
    intro hmem
    apply h
    unfold condParams
    rw [List.mem_dedup, List.mem_flatten]
    exact ⟨t.map Prod.fst, List.mem_map.mpr ⟨t, ht, rfl⟩, hmem⟩
  have hf : t.find? (fun kv => kv.1 == p) = none := by
    rw [List.find?_eq_none]
    intro kv hkv
    simp only [beq_iff_eq]
    intro hEq
    exact hp (List.mem_map.mpr ⟨kv, hkv, hEq⟩)
  unfold lookupA
  rw [hf]
  rfl

theorem rowCell_alignRow (cols : List String) (raw : List (String × Option ℚ))
    (p : String) :
    rowCell (alignRow cols raw) p
      = if p ∈ cols then (lookupA p raw).join else none := by
  unfold rowCell alignRow
  rw [lookupA_keyed_map]
  split <;> rfl

/-- C7: for every condition with at least one trial for the target hand,
each cell of that condition's summary row is the mean of the parameter over
exactly the trials where it is present and numeric (missing entries ignored
independently per parameter); a parameter present in no trial of the
condition yields an undefined cell, not zero; and coercion sends numeric
values through and non-numeric values to missing. -/
theorem aggregator_cell_mean (data : DataMap) (hand cond : String)
    (hd : List (String × List Trial)) (ts : List Trial)
    (hnd : (data.map Prod.fst).Nodup)
    (h1 : lookupA cond data = some hd)
    (h2 : lookupA hand hd = some ts) (h3 : ts ≠ []) :
    (∀ row ∈ (aggregate_task_data_by_hand data hand).rows, row.1 = cond →
      ∀ p ∈ (aggregate_task_data_by_hand data hand).params,
        rowCell row.2 p =
          if collectVals ts p = [] then none
          else some ((collectVals ts p).sum
            / ((collectVals ts p).length : ℚ))) ∧
    (∀ q : ℚ, toNumeric (RawValue.num q) = some q) ∧
    (∀ s : String, toNumeric (RawValue.text s) = none) := by
  refine ⟨?_, fun q => rfl, fun s => rfl⟩
  intro row hrow hname p hp
  simp only [aggregate_task_data_by_hand] at hrow hp
  by_cases hpe : (aggregatedPairs data hand).isEmpty
  · rw [if_pos hpe] at hrow
    simp [Frame.emptyFrame] at hrow
  · rw [if_neg hpe] at hrow hp
    have hrow1 := List.mem_of_mem_filter hrow
    have hrow2 := (stableSortBy_perm
      (fun r : String × List (String × Option ℚ) => sort_condition_key r.1)
      _).mem_iff.mp hrow1
    rcases List.mem_map.mp hrow2 with ⟨pr, hprmem, hpr⟩
    rcases List.mem_filterMap.mp hprmem with ⟨ch, hch, hF⟩
    rcases hL : lookupA hand ch.2 with _ | ts'
    · rw [hL] at hF
      simp at hF
    · rw [hL] at hF
      replace hF : (if ts'.isEmpty = true then none
          else some (ch.1, aggRow ts')) = some pr := hF
      by_cases hts : ts'.isEmpty
      · rw [if_pos hts] at hF
        simp at hF
      · rw [if_neg hts] at hF
        simp only [Option.some.injEq] at hF
        have hch1 : ch.1 = cond := by
          rw [← hname, ← hpr, ← hF]
        have hhd : ch.2 = hd := by
          have hmem : (cond, ch.2) ∈ data := by
            rw [← hch1]
            exact hch
          have := lookupA_of_mem_nodup hnd hmem
          rw [h1] at this
          exact (Option.some.injEq _ _).mp this.symm
        have hts' : ts' = ts := by
          rw [hhd, h2] at hL
          exact (Option.some.injEq _ _).mp hL.symm
        have hcells : row.2 = alignRow (summaryParams (aggregatedPairs data hand))
            (aggRow ts) := by
          rw [← hpr, ← hF, hts']
        rw [hcells, rowCell_alignRow, if_pos hp, lookupA_aggRow]
        by_cases hpc : p ∈ condParams ts
        · rw [if_pos hpc]
          unfold meanOpt
          rcases hcv : collectVals ts p with _ | ⟨v, vs⟩
          · simp
          · simp
        · rw [if_neg hpc]
          rw [collectVals_eq_nil_of_not_mem ts p hpc]
          simp

/-- Trials with a non-numeric entry and a parameter present in only one
trial, exercising the per-parameter mean and the coercion behaviour. -/
def demoTrials : List Trial :=
  [[("MeanSpeed", RawValue.num 10), ("Foo", RawValue.text "bad")],
   [("MeanSpeed", RawValue.num 12)]]

/-- A one-condition data map around `demoTrials`. -/
def demoTrialData : DataMap := [("pr1", [("Right", demoTrials)])]

theorem aggregator_cell_mean_witness :
    (∀ row ∈ (aggregate_task_data_by_hand demoTrialData "Right").rows,
      row.1 = "pr1" →
      ∀ p ∈ (aggregate_task_data_by_hand demoTrialData "Right").params,
        rowCell row.2 p =
          if collectVals demoTrials p = [] then none
          else some ((collectVals demoTrials p).sum
            / ((collectVals demoTrials p).length : ℚ))) ∧
    (∀ q : ℚ, toNumeric (RawValue.num q) = some q) ∧
    (∀ s : String, toNumeric (RawValue.text s) = none) :=
  aggregator_cell_mean demoTrialData "Right" "pr1" [("Right", demoTrials)]
    demoTrials (by simp [demoTrialData]) rfl rfl (by simp [demoTrials])

theorem lookupA_cons_of_eq {β : Type} {kv : String × β} {l : List (String × β)}
    {k : String} (h : kv.1 = k) : lookupA k (kv :: l) = some kv.2 := by
  unfold lookupA
  rw [List.find?_cons_of_pos]
  simpa using h

theorem lookupA_cons_of_ne {β : Type} {kv : String × β} {l : List (String × β)}
    {k : String} (h : kv.1 ≠ k) : lookupA k (kv :: l) = lookupA k l := by
  unfold lookupA
  rw [List.find?_cons_of_neg]
  simpa using h

theorem lookupA_forall2_key {β β' : Type} {P : String → β → β' → Prop}
    {l : List (String × β)} {l' : List (String × β')}
    (h : List.Forall₂ (fun a b => a.1 = b.1 ∧ P a.1 a.2 b.2) l l')
    (k : String) :
    (lookupA k l = none ∧ lookupA k l' = none) ∨
    (∃ v v', lookupA k l = some v ∧ lookupA k l' = some v' ∧ P k v v') := by
  induction h with
  | nil => exact Or.inl ⟨rfl, rfl⟩
  | cons hab hrest ih =>
    rename_i a b as bs
    by_cases hk : a.1 = k
    · right
      refine ⟨a.2, b.2, lookupA_cons_of_eq hk, lookupA_cons_of_eq
        (hab.1.symm.trans hk), ?_⟩
      rw [← hk]
      exact hab.2
    · rw [lookupA_cons_of_ne hk,
        lookupA_cons_of_ne (fun hbk => hk (hab.1.trans hbk))]
      exact ih

theorem isEmpty_eq_of_perm {α : Type} {l l' : List α} (h : l.Perm l') :
    l.isEmpty = l'.isEmpty := by
  have hl := h.length_eq
  rcases l with _ | ⟨a, as⟩ <;> rcases l' with _ | ⟨b, bs⟩ <;> simp_all

theorem meanOpt_perm {xs ys : List ℚ} (h : xs.Perm ys) :
    meanOpt xs = meanOpt ys := by
  unfold meanOpt
  rw [isEmpty_eq_of_perm h, h.sum_eq, h.length_eq]

theorem condParams_mem_of_perm {ts ts' : List Trial} (h : ts.Perm ts')
    {p : String} (hp : p ∈ condParams ts) : p ∈ condParams ts' := by
  unfold condParams at hp ⊢
  rw [List.mem_dedup, List.mem_flatten] at hp ⊢
  rcases hp with ⟨l, hl, hpl⟩
  rcases List.mem_map.mp hl with ⟨t, ht, rfl⟩
  exact ⟨t.map Prod.fst, List.mem_map.mpr ⟨t, h.mem_iff.mp ht, rfl⟩, hpl⟩

theorem condParams_mem_perm {ts ts' : List Trial} (h : ts.Perm ts')
    (p : String) : p ∈ condParams ts ↔ p ∈ condParams ts' :=
  ⟨condParams_mem_of_perm h, condParams_mem_of_perm h.symm⟩

theorem lookupA_aggRow_perm {ts ts' : List Trial} (h : ts.Perm ts')
    (p : String) : lookupA p (aggRow ts) = lookupA p (aggRow ts') := by
  rw [lookupA_aggRow, lookupA_aggRow]
  by_cases hp : p ∈ condParams ts
  · rw [if_pos hp, if_pos ((condParams_mem_perm h p).mp hp)]
    have hcv : (collectVals ts p).Perm (collectVals ts' p) := h.filterMap _
    rw [meanOpt_perm hcv]
  · rw [if_neg hp, if_neg (fun hc => hp ((condParams_mem_perm h p).mpr hc))]

theorem aggRow_map_fst (ts : List Trial) :
    (aggRow ts).map Prod.fst = condParams ts := by
  unfold aggRow
  rw [List.map_map]
  have : (Prod.fst ∘ fun p : String => (p, meanOpt (collectVals ts p))) = id := by
    funext p
    rfl
  rw [this, List.map_id]

theorem forall2_exists_right {α β : Type} {R : α → β → Prop}
    {l : List α} {l' : List β} (h : List.Forall₂ R l l') {a : α}
    (ha : a ∈ l) : ∃ b ∈ l', R a b := by
  induction h with
  | nil => simp at ha
  | cons hab hrest ih =>
    rcases List.mem_cons.mp ha with rfl | ha
    · exact ⟨_, List.mem_cons_self _ _, hab⟩
    · rcases ih ha with ⟨b, hb, hr⟩
      exact ⟨b, List.mem_cons_of_mem _ hb, hr⟩

/-- Two data maps identical except that, condition by condition, the trial
lists stored for the target hand are permutations of one another (trial
lists for other hands are equal). -/
def HandPermuted (hand : String) (data data' : DataMap) : Prop :=
  List.Forall₂ (fun ch ch' => ch.1 = ch'.1 ∧
    List.Forall₂ (fun hv hv' => hv.1 = hv'.1 ∧
      ((hv.1 = hand → hv.2.Perm hv'.2) ∧ (hv.1 ≠ hand → hv.2 = hv'.2)))
      ch.2 ch'.2) data data'

/-- Correspondence between aggregated condition rows: same condition name,
same cells as a lookup function, same present-column set. -/
def PairRel (pr pr' : String × List (String × Option ℚ)) : Prop :=
  pr.1 = pr'.1 ∧ (∀ p, lookupA p pr.2 = lookupA p pr'.2) ∧
    (∀ p, p ∈ pr.2.map Prod.fst ↔ p ∈ pr'.2.map Prod.fst)

theorem aggregatedPairs_rel {hand : String} {data data' : DataMap}
    (h : HandPermuted hand data data') :
    List.Forall₂ PairRel (aggregatedPairs data hand)
      (aggregatedPairs data' hand) := by
  unfold HandPermuted at h
  induction h with
  | nil => exact List.Forall₂.nil
  | cons hab hrest ih =>
    rename_i ch ch' chs chs'
    unfold aggregatedPairs
    simp only [List.filterMap_cons]
    rcases @lookupA_forall2_key (List Trial) (List Trial)
      (fun k v v' => (k = hand → v.Perm v') ∧ (k ≠ hand → v = v'))
      ch.2 ch'.2 hab.2 hand with ⟨hn, hn'⟩ | ⟨ts, ts', hts, hts', hP⟩
    · rw [hn, hn']
      exact ih
    · rw [hts, hts']
      have hperm : ts.Perm ts' := hP.1 rfl
      rcases ts with _ | ⟨t0, trest⟩
      · have hnil : ts' = [] := hperm.symm.eq_nil
        subst hnil
        exact ih
      · rcases ts' with _ | ⟨s0, srest⟩
        · have hlen := hperm.length_eq
          simp at hlen
        · refine List.Forall₂.cons ⟨hab.1, ?_, ?_⟩ ih
          · exact fun p => lookupA_aggRow_perm hperm p
          · intro p
            rw [aggRow_map_fst, aggRow_map_fst]
            exact condParams_mem_perm hperm p

theorem summaryParams_mem_iff {pairs pairs' :
      List (String × List (String × Option ℚ))}
    (h : List.Forall₂ PairRel pairs pairs') (p : String) :
    p ∈ summaryParams pairs ↔ p ∈ summaryParams pairs' := by
  unfold summaryParams
  rw [List.mem_dedup, List.mem_dedup, List.mem_flatten, List.mem_flatten]
  constructor
  · rintro ⟨l, hl, hpl⟩
    rcases List.mem_map.mp hl with ⟨pr, hpr, rfl⟩
    rcases forall2_exists_right h hpr with ⟨pr', hpr', hrel⟩
    exact ⟨pr'.2.map Prod.fst, List.mem_map.mpr ⟨pr', hpr', rfl⟩,
      (hrel.2.2 p).mp hpl⟩
  · rintro ⟨l, hl, hpl⟩
    rcases List.mem_map.mp hl with ⟨pr', hpr', rfl⟩
    rcases forall2_exists_right h.flip hpr' with ⟨pr, hpr, hrel⟩
    exact ⟨pr.2.map Prod.fst, List.mem_map.mpr ⟨pr, hpr, rfl⟩,
      (hrel.2.2 p).mpr hpl⟩

/-- Correspondence between aligned summary rows: same condition name, same
cells at every column label, and the same all-undefined status. -/
def ARowRel (r r' : String × List (String × Option ℚ)) : Prop :=
  r.1 = r'.1 ∧ (∀ p, rowCell r.2 p = rowCell r'.2 p) ∧
    rowAllNone r.2 = rowAllNone r'.2

theorem rowAllNone_alignRow (cols : List String)
    (raw : List (String × Option ℚ)) :
    rowAllNone (alignRow cols raw)
      = cols.all (fun p => ((lookupA p raw).join).isNone) := by
  unfold rowAllNone alignRow
  induction cols with
  | nil => rfl
  | cons c cs ih => simp only [List.map_cons, List.all_cons, ih]

theorem all_congr_mem {cols cols' : List String} {g g' : String → Bool}
    (hiff : ∀ p, p ∈ cols ↔ p ∈ cols') (hval : ∀ p, g p = g' p) :
    cols.all g = cols'.all g' := by
  rw [Bool.eq_iff_iff]
  simp only [List.all_eq_true]
  constructor
  · intro hall p hp
    rw [← hval]
    exact hall p ((hiff p).mpr hp)
  · intro hall p hp
    rw [hval]
    exact hall p ((hiff p).mp hp)

theorem aligned_rel {pairs pairs' : List (String × List (String × Option ℚ))}
    (h : List.Forall₂ PairRel pairs pairs') :
    List.Forall₂ ARowRel
      (pairs.map (fun pr => (pr.1, alignRow (summaryParams pairs) pr.2)))
      (pairs'.map (fun pr => (pr.1, alignRow (summaryParams pairs') pr.2))) := by
  rw [List.forall₂_map_left_iff, List.forall₂_map_right_iff]
  refine h.imp ?_
  intro pr pr' hrel
  refine ⟨hrel.1, ?_, ?_⟩
  · intro p
    by_cases hp : p ∈ summaryParams pairs
    · rw [rowCell_alignRow, rowCell_alignRow, if_pos hp,
        if_pos ((summaryParams_mem_iff h p).mp hp), hrel.2.1 p]
    · rw [rowCell_alignRow, rowCell_alignRow, if_neg hp,
        if_neg (fun hc => hp ((summaryParams_mem_iff h p).mpr hc))]
  · rw [rowAllNone_alignRow, rowAllNone_alignRow]
    refine all_congr_mem (fun p => summaryParams_mem_iff h p) ?_
    intro p
    rw [hrel.2.1 p]

theorem insertSorted_forall2 {α κ : Type} [LinearOrder κ] {R : α → α → Prop}
    {key : α → κ} (hkey : ∀ a b, R a b → key a = key b) :
    ∀ {x y : α} {l l' : List α}, R x y → List.Forall₂ R l l' →
      List.Forall₂ R (insertSorted key x l) (insertSorted key y l') := by
  intro x y l l' hxy h
  induction h with
  | nil => exact List.Forall₂.cons hxy List.Forall₂.nil
  | cons hab hrest ih =>
    rename_i a b as bs
    simp only [insertSorted]
    rw [hkey _ _ hxy, hkey _ _ hab]
    by_cases hc : key y ≤ key b
    · rw [if_pos hc, if_pos hc]
      exact List.Forall₂.cons hxy (List.Forall₂.cons hab hrest)
    · rw [if_neg hc, if_neg hc]
      exact List.Forall₂.cons hab ih

theorem stableSortBy_forall2 {α κ : Type} [LinearOrder κ] {R : α → α → Prop}
    {key : α → κ} (hkey : ∀ a b, R a b → key a = key b) :
    ∀ {l l' : List α}, List.Forall₂ R l l' →
      List.Forall₂ R (stableSortBy key l) (stableSortBy key l') := by
  intro l l' h
  induction h with
  | nil => exact List.Forall₂.nil
  | cons hab hrest ih => exact insertSorted_forall2 hkey hab ih

theorem filter_forall2 {α : Type} {R : α → α → Prop} {p q : α → Bool}
    (hpq : ∀ a b, R a b → p a = q b) :
    ∀ {l l' : List α}, List.Forall₂ R l l' →
      List.Forall₂ R (l.filter p) (l'.filter q) := by
  intro l l' h
  induction h with
  | nil => exact List.Forall₂.nil
  | cons hab hrest ih =>
    rename_i a b as bs
    rw [List.filter_cons, List.filter_cons, ← hpq _ _ hab]
    by_cases hc : p a = true
    · rw [if_pos hc, if_pos hc]
      exact List.Forall₂.cons hab ih
    · rw [if_neg hc, if_neg hc]
      exact ih

theorem forall2_map_fst {β : Type} {rows rows' : List (String × β)}
    {R : String × β → String × β → Prop}
    (hf : ∀ a b, R a b → a.1 = b.1) (h : List.Forall₂ R rows rows') :
    rows.map Prod.fst = rows'.map Prod.fst := by
  induction h with
  | nil => rfl
  | cons hab hrest ih =>
    simp only [List.map_cons, ih, hf _ _ hab]

theorem cell_eq_of_forall2 {rows rows' :
      List (String × List (String × Option ℚ))}
    (h : List.Forall₂ ARowRel rows rows') (c p : String) :
    (match lookupA c rows with
      | some cells => rowCell cells p
      | none => none)
      = (match lookupA c rows' with
          | some cells => rowCell cells p
          | none => none) := by
  induction h with
  | nil => rfl
  | cons hab hrest ih =>
    rename_i a b as bs
    by_cases hc : a.1 = c
    · rw [lookupA_cons_of_eq hc, lookupA_cons_of_eq (hab.1.symm.trans hc)]
      exact hab.2.1 p
    · rw [lookupA_cons_of_ne hc,
        lookupA_cons_of_ne (fun hbc => hc (hab.1.trans hbc))]
      exact ih

/-- C9: permuting the list of trial tables supplied for the target hand of
any condition leaves the aggregator's `ConditionSummary` unchanged as a
keyed table: the same row labels in the same order, the same column-label
set, and the same cell value at every (condition, parameter) pair. -/
theorem aggregation_perm_invariant (hand : String) (data data' : DataMap)
    (h : HandPermuted hand data data') :
    (aggregate_task_data_by_hand data hand).rows.map Prod.fst
      = (aggregate_task_data_by_hand data' hand).rows.map Prod.fst ∧
    (∀ p, p ∈ (aggregate_task_data_by_hand data hand).params ↔
      p ∈ (aggregate_task_data_by_hand data' hand).params) ∧
    (∀ c p, (aggregate_task_data_by_hand data hand).cell c p
      = (aggregate_task_data_by_hand data' hand).cell c p) := by
  have hpairs := aggregatedPairs_rel h
  simp only [aggregate_task_data_by_hand]
  have hrowsrel : List.Forall₂ ARowRel
      ((stableSortBy (fun r => sort_condition_key r.1)
        ((aggregatedPairs data hand).map
          (fun pr => (pr.1, alignRow (summaryParams
            (aggregatedPairs data hand)) pr.2)))).filter
        (fun r => !rowAllNone r.2))
      ((stableSortBy (fun r => sort_condition_key r.1)
        ((aggregatedPairs data' hand).map
          (fun pr => (pr.1, alignRow (summaryParams
            (aggregatedPairs data' hand)) pr.2)))).filter
        (fun r => !rowAllNone r.2)) := by
    refine filter_forall2 ?_ (stableSortBy_forall2 ?_ (aligned_rel hpairs))
    · intro a b hr
      rw [hr.2.2]
    · intro a b hr
      rw [hr.1]
  by_cases hpe : (aggregatedPairs data hand).isEmpty
  · have hnil : aggregatedPairs data hand = [] := List.isEmpty_iff.mp hpe
    have hnil' : aggregatedPairs data' hand = [] := by
      have hlen := hpairs.length_eq
      rw [hnil] at hlen
      exact List.length_eq_zero.mp hlen.symm
    have hpe' : (aggregatedPairs data' hand).isEmpty = true := by
      rw [hnil']
      rfl
    rw [if_pos hpe, if_pos hpe']
    exact ⟨rfl, fun p => Iff.rfl, fun c p => rfl⟩
  · have hpe' : ¬(aggregatedPairs data' hand).isEmpty = true := by
      intro hc
      apply hpe
      have hnil' : aggregatedPairs data' hand = [] := List.isEmpty_iff.mp hc
      have hlen := hpairs.length_eq
      rw [hnil'] at hlen
      rw [List.isEmpty_iff]
      exact List.length_eq_zero.mp hlen
    rw [if_neg hpe, if_neg hpe']
    refine ⟨?_, ?_, ?_⟩
    · exact forall2_map_fst (fun a b hr => hr.1) hrowsrel
    · exact fun p => summaryParams_mem_iff hpairs p
    · exact fun c p => cell_eq_of_forall2 hrowsrel c p

/-- First trial for the permutation witness. -/
def demoPermTrialA : Trial := [("MeanSpeed", RawValue.num 10)]

/-- Second trial for the permutation witness, with an extra attribute so
the two trials have different parameter sets. -/
def demoPermTrialB : Trial :=
  [("MeanSpeed", RawValue.num 12), ("Foo", RawValue.num 1)]

/-- One-condition data map listing the two witness trials in order. -/
def demoPermDataA : DataMap :=
  [("pr1", [("Right", [demoPermTrialA, demoPermTrialB])])]

/-- The same data map with the two trials swapped. -/
def demoPermDataB : DataMap :=
  [("pr1", [("Right", [demoPermTrialB, demoPermTrialA])])]

theorem aggregation_perm_invariant_witness :
    (aggregate_task_data_by_hand demoPermDataA "Right").rows.map Prod.fst
      = (aggregate_task_data_by_hand demoPermDataB "Right").rows.map
          Prod.fst ∧
    (∀ p, p ∈ (aggregate_task_data_by_hand demoPermDataA "Right").params ↔
      p ∈ (aggregate_task_data_by_hand demoPermDataB "Right").params) ∧
    (∀ c p, (aggregate_task_data_by_hand demoPermDataA "Right").cell c p
      = (aggregate_task_data_by_hand demoPermDataB "Right").cell c p) :=
  aggregation_perm_invariant "Right" demoPermDataA demoPermDataB
    (List.Forall₂.cons
      ⟨rfl, List.Forall₂.cons
        ⟨rfl, fun _ => List.Perm.swap demoPermTrialB demoPermTrialA [],
          fun hne => absurd rfl hne⟩
        List.Forall₂.nil⟩
      List.Forall₂.nil)
